import Mathlib

/-!
Verification development for the cash-captcha solve-loop and
worker-coordination subsystem.

The definitions below are a shallow embedding of the JavaScript source:

* `worker.js` (`solveChallenge`, `handleMessage`): the deadline-bounded
  nonce search.  The per-call wall clock is an explicit `clock` stream
  (one reading per invocation of `solutionIteration`), the WASM hash
  oracle is an explicit function of the nonce bytes, and the messages
  posted by the worker are collected into an event list.
* `solver.js` (`Solver.solveLoop`, `runWorker.handleMessage`): the
  orchestrator loop, with the per-round external outcomes (fetch result,
  worker result, submission outcomes, the `shouldContinueSolving` flag
  readings at each checkpoint) supplied as an explicit stream.
* `api.js` (`getChallenge`, `submitSolution`): action traces recording
  status emissions, sleeps, the HTTP calls and the oracle validation
  call.

Machine integers are modelled as `Nat`/`Int`; `DataView.setUint32`
truncation is written out as `% 2^32` arithmetic.
-/

namespace CashCaptcha

/-- Byte vectors (JS `Uint8Array` contents) are lists of naturals. -/
abbrev Bytes := List Nat

/-- Solution record built in `worker.js` `solveChallenge` (fields
`digest`, `nonce`, `difficulty`, `hash`, `challenge`). -/
structure Solution where
  digest : Bytes
  nonce : Bytes
  difficulty : Nat
  hash : Bytes
  challenge : Bytes
deriving Repr, DecidableEq

/-- Outcome of one `hash_with_memory` invocation: either a digest/hash
pair or a thrown error (e.g. the benign "No solutions"). -/
inductive HashResult where
  | ok (d : Bytes) (h : Bytes)
  | err (message : String)
deriving Repr, DecidableEq

/-- Messages posted by the worker (`sendMessage` in `worker.js`):
`solution` events and `status` events (status metadata is not modelled;
no claim inspects it). -/
inductive WEvent where
  | solutionEv (s : Solution)
  | statusEv (msg : String)
deriving Repr, DecidableEq

/-- Environment of one worker run: the decoded challenge bytes, the
nonce range, the deadline, the wall clock as read at the start of the
i-th call of `solutionIteration`, the hash oracle, and whether the WASM
solver memory was initialized. -/
structure WorkerEnv where
  challengeArray : Bytes
  nonceStart : Nat
  nonceEnd : Nat
  deadline : Int
  startTime : Int
  clock : Nat → Int
  hashWithMemory : Bytes → Bytes → HashResult
  oracleDifficulty : Bytes → Nat
  wasmInit : Bool

/-- Mutable state of the `solveChallenge` loop. -/
structure IterState where
  bestSolution : Option Solution
  bestDifficulty : Nat
  lastPostedSolution : Option Solution
  lastUpdateTime : Int
  nonce : Nat
  i : Nat
deriving Repr

/-- Result of running the loop: the posted events in order, the value
the promise resolves with, whether it resolved at all (the
`WasmSolverMemory is not initialized` branch returns without resolving),
and the number of `hash_with_memory` invocations. -/
structure RunResult where
  events : List WEvent
  result : Option Solution
  resolved : Bool
  hashCalls : Nat
deriving Repr

/-- Fixed target difficulty (`const target = 8` in `solveChallenge`). -/
def target : Nat := 8

/-- Little-endian bytes of `DataView.setUint32(_, x, true)`: the low 32
bits of `x`, least significant byte first. -/
def toLE32 (x : Nat) : Bytes :=
  [x % 256, x / 256 % 256, x / 65536 % 256, x / 16777216 % 256]

/-- Nonce encoding from `solveChallenge`: split into
`highPart = Math.floor(nonce / 0x100000000)` and `lowPart = nonce >>> 0`
and write both as 32-bit little-endian words (low word first). -/
def encodeNonce (nonce : Nat) : Bytes :=
  toLE32 (nonce % 4294967296) ++ toLE32 (nonce / 4294967296)

/-- Decoding an 8-byte buffer as a little-endian integer. -/
def decodeLE (bytes : Bytes) : Nat :=
  match bytes with
  | [] => 0
  | b :: rest => b + 256 * decodeLE rest

/-- Top-of-iteration emission block of `solutionIteration`: if a best
solution exists and it is strictly better than `lastPostedSolution`
(or nothing was posted yet), post it and record it as posted. -/
def topEmission (best lastPosted : Option Solution) :
    List WEvent × Option Solution :=
  match best with
  | none => ([], lastPosted)
  | some b =>
    match lastPosted with
    | none => ([WEvent.solutionEv b], some b)
    | some lp =>
      if lp.difficulty < b.difficulty then ([WEvent.solutionEv b], some b)
      else ([], some lp)

/-- Hash-and-compare step of `solutionIteration`: on a successful hash,
if the difficulty reaches the target and strictly exceeds the current
best, replace the retained best solution and post it (followed by a
status message); a thrown hash error is swallowed. Returns the emitted
events, the new best solution and the new best difficulty. -/
def updateBest (dFn : Bytes → Nat) (hres : HashResult)
    (nonceBytes challenge : Bytes) (best : Option Solution)
    (bestDiff : Nat) : List WEvent × Option Solution × Nat :=
  match hres with
  | .err _ => ([], best, bestDiff)
  | .ok d h =>
    let currentDifficulty := dFn h
    if target ≤ currentDifficulty ∧ (best = none ∨ bestDiff < currentDifficulty) then
      let sol : Solution :=
        ⟨d, nonceBytes, currentDifficulty, h, challenge⟩
      ([WEvent.solutionEv sol,
        WEvent.statusEv ("New best solution found. Difficulty: " ++ toString currentDifficulty)],
       some sol, currentDifficulty)
    else ([], best, bestDiff)

/-- Throttled progress report: emit a `Checking solutions...` status at
most once per 100 ms of wall-clock time. -/
def statusThrottle (now lastUpdateTime : Int) : List WEvent × Int :=
  if 100 ≤ now - lastUpdateTime then
    ([WEvent.statusEv "Checking solutions..."], now)
  else ([], lastUpdateTime)

/-- Final status emitted when the loop terminates. -/
def finalStatus (best : Option Solution) : WEvent :=
  match best with
  | some b =>
    WEvent.statusEv ("Solving completed. Best solution found with difficulty: "
      ++ toString b.difficulty)
  | none =>
    WEvent.statusEv "Solving completed. No solution found meeting the target difficulty."

/-- The `solutionIteration` loop of `solveChallenge`, run on explicit
fuel (the caller passes enough fuel for the nonce range, see
`workerFuel`).  Each call: run the top emission block; if the nonce is
in range and the deadline has not passed, hash the current nonce,
possibly update the best solution, run the throttled status report and
recurse on the next nonce; otherwise emit the final status and resolve
with the retained best solution. -/
def solveRunFuel (env : WorkerEnv) : Nat → IterState → RunResult
  | 0, st => ⟨[], st.bestSolution, false, 0⟩
  | fuel + 1, st =>
    let te := topEmission st.bestSolution st.lastPostedSolution
    if st.nonce ≤ env.nonceEnd ∧ env.clock st.i < env.deadline then
      if env.wasmInit = true then
        let nb := encodeNonce st.nonce
        let ub := updateBest env.oracleDifficulty
          (env.hashWithMemory env.challengeArray nb) nb env.challengeArray
          st.bestSolution st.bestDifficulty
        let thr := statusThrottle (env.clock st.i) st.lastUpdateTime
        let rest := solveRunFuel env fuel
          ⟨ub.2.1, ub.2.2, te.2, thr.2, st.nonce + 1, st.i + 1⟩
        ⟨te.1 ++ ub.1 ++ thr.1 ++ rest.events, rest.result, rest.resolved,
         rest.hashCalls + 1⟩
      else
        ⟨te.1 ++ [WEvent.statusEv "Error: WasmSolverMemory is not initialized"],
         none, false, 0⟩
    else
      ⟨te.1 ++ [finalStatus st.bestSolution], st.bestSolution, true, 0⟩

/-- Fuel that always suffices for the whole nonce range: one call per
nonce from `nonceStart` to `nonceEnd` plus the terminating call. -/
def workerFuel (env : WorkerEnv) : Nat :=
  env.nonceEnd + 1 - env.nonceStart + 1

/-- Initial loop state of `solveChallenge` (`bestSolution = null`,
`bestDifficulty = 0`, `lastPostedSolution = null`,
`lastUpdateTime = Date.now()`, `nonce = nonceStart`). -/
def initState (env : WorkerEnv) : IterState :=
  ⟨none, 0, none, env.startTime, env.nonceStart, 0⟩

/-- The whole `solveChallenge` run. -/
def solveChallenge (env : WorkerEnv) : RunResult :=
  solveRunFuel env (workerFuel env) (initState env)

/-- Result of the worker's `handleMessage`: all messages it posts and
the number of oracle hash invocations. -/
structure HandleResult where
  events : List WEvent
  hashCalls : Nat
deriving Repr

/-- The worker's `handleMessage`: reject a decoded challenge whose
length is not 32 before any hashing (the thrown error is caught and
reported as a status message); otherwise run `solveChallenge` and relay
its resolution as a final `solution` or `status` message. -/
def handleMessage (env : WorkerEnv) : HandleResult :=
  if env.challengeArray.length = 32 then
    let r := solveChallenge env
    if r.resolved = true then
      match r.result with
      | some s => ⟨r.events ++ [WEvent.solutionEv s], r.hashCalls⟩
      | none =>
        ⟨r.events ++ [WEvent.statusEv "No solution found within the time limit"],
         r.hashCalls⟩
    else ⟨r.events, r.hashCalls⟩
  else
    ⟨[WEvent.statusEv ("Error in captcha process: Invalid challenge length: "
        ++ toString env.challengeArray.length ++ ". Expected 32 bytes.")], 0⟩

/-- Configuration record from `config.js`. -/
structure SolverConfig where
  apiUrl : String
  logLevel : String
  maxRetries : Nat
  retryDelay : Int
  performanceThreshold : Nat
  nonceRangeSize : Option Nat
deriving Repr, DecidableEq

/-- The `defaultConfig` object of `config.js`. -/
def defaultConfig : SolverConfig :=
  ⟨"https://api.cashcaptcha.com", "warn", 3, 5000, 3, none⟩

/-- Challenge payload of a ready fetch response.  The `challenge` field
holds the decoded bytes of the base64 string (the base64 transport
layer is elided: worker and submission decode the same string to the
same bytes). -/
structure ChallengeData where
  challenge : Bytes
  nonceStart : Nat
  nonceEnd : Nat
  deadline : Int
  nextCheckIn : Int
  captchaWorkerId : Option String
deriving Repr, DecidableEq

/-- External outcome of the HTTP GET inside `getChallenge`: a thrown
transport/server error, a `not_ready` response, or a ready challenge. -/
inductive FetchOutcome where
  | throwErr (msg : String)
  | notReady (nextCheckIn : Int)
  | ready (c : ChallengeData)
deriving Repr, DecidableEq

/-- Value `getChallenge` returns to the solve loop. -/
inductive FetchRet where
  | nullRet
  | notReady (retryDelay : Int) (nextCheckIn : Int)
  | ready (c : ChallengeData)
deriving Repr, DecidableEq

/-- Observable actions of the orchestrator and the API layer: sleeps
(with their duration in ms), the HTTP GET for a challenge, spawning a
search worker, the `is_valid_solution` oracle call, the HTTP POST of a
solution, and emitted status strings. -/
inductive LAction where
  | sleep (ms : Int)
  | fetchCall
  | dispatchWorker
  | validateCall
  | submitCall
  | status (s : String)
deriving Repr, DecidableEq

/-- The `getChallenge` function of `api.js`: emit a status, sleep 1 s,
issue the GET; on a thrown error emit an error status, sleep 30 s and
return null; on `not_ready` compute the retry delay from `nextCheckIn`;
on a ready challenge store the returned `captchaWorkerId` (if any).
Returns the action trace, the return value and the new stored id. -/
def getChallenge (storedId : Option String) (outcome : FetchOutcome)
    (now : Int) : List LAction × FetchRet × Option String :=
  let pre := [LAction.status "Fetching challenge", LAction.sleep 1000,
    LAction.fetchCall]
  match outcome with
  | .throwErr _ =>
    (pre ++ [LAction.status "Error fetching challenge", LAction.sleep 30000],
     FetchRet.nullRet, storedId)
  | .notReady nci =>
    (pre ++ [LAction.status "Waiting until next check-in"],
     FetchRet.notReady (nci - now) nci, storedId)
  | .ready c =>
    (pre, FetchRet.ready c,
     match c.captchaWorkerId with
     | some wid => some wid
     | none => storedId)

/-- External outcome of the `is_valid_solution` oracle call. -/
inductive ValidOutcome where
  | ok (b : Bool)
  | throwErr (msg : String)
deriving Repr, DecidableEq

/-- External outcome of the HTTP POST inside `submitSolution`. -/
inductive PostOutcome where
  | ok
  | throwErr (msg : String)
deriving Repr, DecidableEq

/-- External outcomes consumed by one `submitSolution` call. -/
structure SubmitEnv where
  validOutcome : ValidOutcome
  postOutcome : PostOutcome
deriving Repr, DecidableEq

/-- Result object returned by `submitSolution` (`status` plus optional
`message`). -/
structure SubmitRet where
  status : String
  message : Option String
deriving Repr, DecidableEq

/-- The `submitSolution` function of `api.js`: sleep 1 s, rebuild the
challenge and digest-plus-nonce byte arrays, reject wrong lengths
before any oracle call, call `is_valid_solution` (a thrown error or a
`false` verdict yields an error result without any POST), then POST the
solution; every failure path returns an error result object instead of
throwing. -/
def submitSolution (sol : Solution) (challengeArray : Bytes)
    (senv : SubmitEnv) : List LAction × SubmitRet :=
  let solutionArray := sol.digest ++ sol.nonce
  let pre := [LAction.sleep 1000]
  if challengeArray.length ≠ 32 ∨ solutionArray.length ≠ 24 then
    (pre ++ [LAction.status "Error: Invalid input lengths"],
     ⟨"error", some "Invalid input lengths"⟩)
  else
    match senv.validOutcome with
    | .throwErr m =>
      (pre ++ [LAction.validateCall,
        LAction.status ("Error validating solution: " ++ m)],
       ⟨"error", some ("Error validating solution: " ++ m)⟩)
    | .ok false =>
      (pre ++ [LAction.validateCall, LAction.status "Error: Invalid solution"],
       ⟨"error", some "Invalid solution"⟩)
    | .ok true =>
      match senv.postOutcome with
      | .ok =>
        (pre ++ [LAction.validateCall, LAction.submitCall,
          LAction.status "Solution submitted successfully", LAction.sleep 1000],
         ⟨"success", none⟩)
      | .throwErr m =>
        (pre ++ [LAction.validateCall, LAction.submitCall,
          LAction.status ("Error submitting solution: " ++ m), LAction.sleep 1000],
         ⟨"error", some m⟩)

/-- External outcomes and flag readings of one round of the solve loop:
the fetch outcome, the wall clock inside `getChallenge`, the outcome of
`runWorker` (an `Except` so that a thrown worker-spawn error exercises
the loop's catch), the submission outcomes, the wall clock at the
check-in computation, and the three `shouldContinueSolving` readings
(after fetch, after submit, and at the `while` condition of this
round). -/
structure RoundEnv where
  fetch : FetchOutcome
  fetchNow : Int
  runWorkerOutcome : Except String (Option Solution)
  submit : SubmitEnv
  nowAtCheckIn : Int
  contAfterFetch : Bool
  contAfterSubmit : Bool
  contAtLoop : Bool

/-- Error payload propagating to the solve loop's catch: the thrown
message, the actions already performed, and the stored worker id as
mutated so far. -/
structure CaughtErr where
  msg : String
  acts : List LAction
  storedId : Option String

/-- Result of one round: the action trace, the stored worker id after
the round, and whether the round broke out of the loop. -/
structure RoundOut where
  acts : List LAction
  storedId : Option String
  broke : Bool

/-- Body of one iteration of `Solver.solveLoop` (the part inside the
`try`): fetch a challenge, handle the null and `not_ready` outcomes by
sleeping and continuing, check the stop flag, dispatch the worker,
submit a found solution (its own errors are caught locally), check the
stop flag again, and sleep until `nextCheckIn`.  A thrown error carries
the trace so far to the catch. -/
def roundBody (cfg : SolverConfig) (renv : RoundEnv)
    (storedId : Option String) : Except CaughtErr RoundOut :=
  let fr := getChallenge storedId renv.fetch renv.fetchNow
  let fa := fr.1
  let sid := fr.2.2
  match fr.2.1 with
  | .nullRet =>
    .ok ⟨fa ++ [LAction.status "Failed to get challenge, retrying",
      LAction.sleep cfg.retryDelay], sid, false⟩
  | .notReady rd _ =>
    .ok ⟨fa ++ [LAction.sleep rd], sid, false⟩
  | .ready c =>
    if renv.contAfterFetch = false then .ok ⟨fa, sid, true⟩
    else
      let da := fa ++ [LAction.status "Starting solution search",
        LAction.dispatchWorker]
      match renv.runWorkerOutcome with
      | .error m => .error ⟨m, da, sid⟩
      | .ok sol =>
        let sa :=
          match sol with
          | some s =>
            let sub := submitSolution s c.challenge renv.submit
            da ++ [LAction.status "Submitting solution"] ++ sub.1
              ++ [LAction.status ("Solution submitted: " ++ sub.2.status)]
          | none => da ++ [LAction.status "No solution found"]
        if renv.contAfterSubmit = false then .ok ⟨sa, sid, true⟩
        else
          let timeToWait := max 0 (c.nextCheckIn - renv.nowAtCheckIn)
          .ok ⟨sa ++ [LAction.status "Waiting until next check-in",
            LAction.sleep timeToWait], sid, false⟩

/-- One full round of `Solver.solveLoop`: the first round sleeps 500 ms
first; a thrown body error is caught, reported as a status and followed
by a 5 s sleep, and the loop continues. -/
def solveRound (cfg : SolverConfig) (renv : RoundEnv) (first : Bool)
    (storedId : Option String) : RoundOut :=
  let pre := if first then [LAction.sleep 500] else []
  match roundBody cfg renv storedId with
  | .ok r => ⟨pre ++ r.acts, r.storedId, r.broke⟩
  | .error e =>
    ⟨pre ++ e.acts ++ [LAction.status "Error in solving loop",
      LAction.sleep 5000], e.storedId, false⟩

/-- Result of running the solve loop: the action trace and whether the
loop exited (`true`) or merely ran out of modelled rounds (`false`). -/
structure LoopOut where
  acts : List LAction
  halted : Bool

/-- Rounds of `Solver.solveLoop`, driven by the per-round environment
stream; the `while` condition re-reads `shouldContinueSolving` before
each round. -/
def loopRounds (cfg : SolverConfig) (renvs : Nat → RoundEnv) :
    Nat → Nat → Option String → LoopOut
  | _, 0, _ => ⟨[], false⟩
  | k, fuel + 1, storedId =>
    if (renvs k).contAtLoop = false then ⟨[], true⟩
    else
      let r := solveRound cfg (renvs k) (k = 0) storedId
      if r.broke then ⟨r.acts, true⟩
      else
        let rest := loopRounds cfg renvs (k + 1) fuel r.storedId
        ⟨r.acts ++ rest.acts, rest.halted⟩

/-- `Solver.solveLoop`: query the device gate once; if the returned
tier (`category`) is below `performanceThreshold`, run the rounds,
otherwise return immediately. -/
def solveLoop (cfg : SolverConfig) (renvs : Nat → RoundEnv)
    (category : Nat) (fuel : Nat) : LoopOut :=
  if category < cfg.performanceThreshold then
    loopRounds cfg renvs 0 fuel none
  else ⟨[], true⟩

/-- Best-solution tracking of `runWorker`'s message handler in
`solver.js`: a `solution` message replaces the tracked best iff its
difficulty is strictly greater. -/
def trackBest (best : Option Solution) (msg : WEvent) : Option Solution :=
  match msg with
  | WEvent.solutionEv s =>
    match best with
    | none => some s
    | some b => if b.difficulty < s.difficulty then some s else some b
  | WEvent.statusEv _ => best

/-- Difficulty of a tracked best solution (0 when none). -/
def trackedDifficulty : Option Solution → Nat
  | none => 0
  | some s => s.difficulty

/-! ### Helper functions over event and action traces -/

/-- Difficulties of the `solution` events of a worker trace, in order. -/
def solEvDiffs (evs : List WEvent) : List Nat :=
  evs.filterMap (fun e =>
    match e with
    | WEvent.solutionEv s => some s.difficulty
    | WEvent.statusEv _ => none)

/-- Number of times a given solution is posted as a `solution` event. -/
def countSol (s : Solution) (evs : List WEvent) : Nat :=
  evs.count (WEvent.solutionEv s)

/-- Sleep durations occurring in an orchestrator action trace. -/
def sleepsOf (l : List LAction) : List Int :=
  l.filterMap (fun a =>
    match a with
    | LAction.sleep ms => some ms
    | _ => none)

/-- Whether an action is the challenge fetch call. -/
def isFetchCall : LAction → Bool
  | LAction.fetchCall => true
  | _ => false

/-- The part of an action trace strictly after the first challenge
fetch call. -/
def afterFetch (l : List LAction) : List LAction :=
  (l.dropWhile (fun a => !(isFetchCall a))).drop 1

/-- Whether an action is an oracle validation call or a solution POST. -/
def isOracleOrPost : LAction → Bool
  | LAction.validateCall => true
  | LAction.submitCall => true
  | _ => false

/-- Subtrace of oracle validation calls and solution POSTs, in order. -/
def oraclePostCalls (l : List LAction) : List LAction :=
  l.filter isOracleOrPost

/-! ### Invariants of the worker loop state -/

/-- Basic invariant of the `solveChallenge` loop state: when no best
solution is retained the best difficulty is 0, and a retained best
solution has difficulty equal to `bestDifficulty` and at least the
target 8. -/
def Inv (st : IterState) : Prop :=
  (st.bestSolution = none → st.bestDifficulty = 0) ∧
  (∀ b, st.bestSolution = some b →
    b.difficulty = st.bestDifficulty ∧ 8 ≤ st.bestDifficulty)

/-- Extended invariant: additionally, anything recorded as last posted
has difficulty at most the current best difficulty, and exists only
when a best solution is retained. -/
def Wf (st : IterState) : Prop :=
  Inv st ∧
  ∀ lp, st.lastPostedSolution = some lp →
    lp.difficulty ≤ st.bestDifficulty ∧ st.bestSolution ≠ none

/-- The retained best solution has not yet been re-posted by the
top-of-iteration emission block (it is pending a second post). -/
def pendingBest (st : IterState) (s : Solution) : Prop :=
  st.bestSolution = some s ∧
  ∀ lp, st.lastPostedSolution = some lp → lp.difficulty < s.difficulty

/-! ### Concrete inputs used by witnesses and counterexamples -/

/-- A 32-byte all-zero challenge. -/
def chal32 : Bytes := List.replicate 32 0

/-- Worker environment with a single-nonce range whose oracle always
reports difficulty 9. -/
def env0 : WorkerEnv :=
  ⟨chal32, 0, 0, 10, 0, fun _ => 0, fun _ _ => HashResult.ok [] [],
   fun _ => 9, true⟩

/-- The solution `env0`'s run discovers at nonce 0. -/
def sol0 : Solution := ⟨[], encodeNonce 0, 9, [], chal32⟩

/-- Worker environment whose deadline is already past at dispatch. -/
def envPast : WorkerEnv :=
  ⟨chal32, 0, 10, 0, 0, fun _ => 0, fun _ _ => HashResult.err "No solutions",
   fun _ => 0, true⟩

/-- Worker environment with a 3-byte (malformed) challenge. -/
def envBadLen : WorkerEnv :=
  ⟨[1, 2, 3], 0, 10, 100, 0, fun _ => 0, fun _ _ => HashResult.ok [] [],
   fun _ => 9, true⟩

/-- A well-formed solution (16-byte digest, 8-byte nonce). -/
def solSubmit : Solution :=
  ⟨List.replicate 16 0, List.replicate 8 0, 9, [], chal32⟩

/-- Submission outcomes: validation succeeds, POST succeeds. -/
def senvTrue : SubmitEnv := ⟨ValidOutcome.ok true, PostOutcome.ok⟩

/-- Submission outcomes: validation reports an invalid solution. -/
def senvFalse : SubmitEnv := ⟨ValidOutcome.ok false, PostOutcome.ok⟩

/-- Round environment whose challenge fetch throws a transport error;
all stop-flag readings are `true`. -/
def renvFail : RoundEnv :=
  ⟨FetchOutcome.throwErr "network error", 0, Except.ok none, senvTrue, 0,
   true, true, true⟩

/-- Constant round-environment stream. -/
def renvsConst : Nat → RoundEnv := fun _ => renvFail

/-! ### Basic facts about the worker loop components -/

theorem ne_of_difficulty_ne {a b : Solution}
    (h : a.difficulty ≠ b.difficulty) : a ≠ b :=
  fun he => h (he ▸ rfl)

theorem statusThrottle_no_solution (now lu : Int) (s : Solution) :
    WEvent.solutionEv s ∉ (statusThrottle now lu).1 := by
  unfold statusThrottle
  split <;> simp

theorem solEvDiffs_statusThrottle (now lu : Int) :
    solEvDiffs (statusThrottle now lu).1 = [] := by
  unfold statusThrottle
  split <;> simp [solEvDiffs]

theorem countSol_statusThrottle (s : Solution) (now lu : Int) :
    countSol s (statusThrottle now lu).1 = 0 := by
  unfold statusThrottle countSol
  split <;> simp

theorem countSol_append (s : Solution) (l₁ l₂ : List WEvent) :
    countSol s (l₁ ++ l₂) = countSol s l₁ + countSol s l₂ :=
  List.count_append _ _ _

theorem countSol_nil (s : Solution) : countSol s [] = 0 := rfl

theorem countSol_single_sol (s t : Solution) :
    countSol s [WEvent.solutionEv t] = if t = s then 1 else 0 := by
  unfold countSol
  by_cases h : t = s <;> simp [List.count_cons, h]

theorem countSol_single_status (s : Solution) (m : String) :
    countSol s [WEvent.statusEv m] = 0 := by
  unfold countSol
  simp [List.count_cons]

theorem countSol_pos_of_mem {s : Solution} {evs : List WEvent}
    (h : WEvent.solutionEv s ∈ evs) : 0 < countSol s evs :=
  List.count_pos_iff.mpr h

theorem mem_solEvDiffs {evs : List WEvent} {d : Nat} :
    d ∈ solEvDiffs evs ↔
      ∃ s : Solution, WEvent.solutionEv s ∈ evs ∧ s.difficulty = d := by
  unfold solEvDiffs
  rw [List.mem_filterMap]
  constructor
  · rintro ⟨e, he, hm⟩
    cases e with
    | solutionEv s => exact ⟨s, he, by simpa using hm⟩
    | statusEv m => simp at hm
  · rintro ⟨s, hs, rfl⟩
    exact ⟨WEvent.solutionEv s, hs, rfl⟩

/-! ### Shape lemmas for the loop components -/

theorem topEmission_cases (bs lp : Option Solution) :
    ((topEmission bs lp).1 = [] ∧ (topEmission bs lp).2 = lp)
    ∨ ∃ b, bs = some b ∧ (topEmission bs lp).1 = [WEvent.solutionEv b]
        ∧ (topEmission bs lp).2 = some b := by
  cases bs with
  | none => exact Or.inl ⟨rfl, rfl⟩
  | some b =>
    cases lp with
    | none => exact Or.inr ⟨b, rfl, rfl, rfl⟩
    | some l =>
      by_cases hl : l.difficulty < b.difficulty
      · exact Or.inr ⟨b, rfl, by simp [topEmission, hl], by simp [topEmission, hl]⟩
      · exact Or.inl ⟨by simp [topEmission, hl], by simp [topEmission, hl]⟩

theorem updateBest_cases (dFn : Bytes → Nat) (hres : HashResult)
    (nb cA : Bytes) (best : Option Solution) (bd : Nat)
    (hbd0 : best = none → bd = 0) :
    ((updateBest dFn hres nb cA best bd).1 = []
      ∧ (updateBest dFn hres nb cA best bd).2.1 = best
      ∧ (updateBest dFn hres nb cA best bd).2.2 = bd)
    ∨ ∃ sol : Solution,
        (updateBest dFn hres nb cA best bd).1 =
          [WEvent.solutionEv sol,
           WEvent.statusEv ("New best solution found. Difficulty: "
             ++ toString sol.difficulty)]
        ∧ (updateBest dFn hres nb cA best bd).2.1 = some sol
        ∧ (updateBest dFn hres nb cA best bd).2.2 = sol.difficulty
        ∧ 8 ≤ sol.difficulty ∧ bd < sol.difficulty := by
  cases hres with
  | err m => exact Or.inl ⟨rfl, rfl, rfl⟩
  | ok d h =>
    by_cases g : target ≤ dFn h ∧ (best = none ∨ bd < dFn h)
    · refine Or.inr ⟨⟨d, nb, dFn h, h, cA⟩, ?_, ?_, ?_, g.1, ?_⟩
      · simp [updateBest, if_pos g]
      · simp [updateBest, if_pos g]
      · simp [updateBest, if_pos g]
      · rcases g.2 with hn | hlt
        · have hz : bd = 0 := hbd0 hn
          have h8 : 8 ≤ dFn h := g.1
          show bd < dFn h
          omega
        · exact hlt
    · exact Or.inl ⟨by simp [updateBest, if_neg g],
        by simp [updateBest, if_neg g], by simp [updateBest, if_neg g]⟩

theorem pairwise_le_append_of_bounds (m : Nat) {l₁ l₂ : List Nat}
    (hp1 : List.Pairwise (fun a b => a ≤ b) l₁)
    (hub : ∀ a ∈ l₁, a ≤ m) (hlb : ∀ b ∈ l₂, m ≤ b)
    (hp2 : List.Pairwise (fun a b => a ≤ b) l₂) :
    List.Pairwise (fun a b => a ≤ b) (l₁ ++ l₂) := by
  rw [List.pairwise_append]
  exact ⟨hp1, hp2, fun a ha b hb => le_trans (hub a ha) (hlb b hb)⟩

/-! ### Monotonicity of the worker search loop -/

theorem mem_append4 {α : Type} {a : α} {l₁ l₂ l₃ l₄ : List α}
    (h : a ∈ l₁ ++ l₂ ++ l₃ ++ l₄) :
    a ∈ l₁ ∨ a ∈ l₂ ∨ a ∈ l₃ ∨ a ∈ l₄ := by
  simp only [List.mem_append] at h
  tauto

theorem solveRunFuel_mono (env : WorkerEnv) :
    ∀ (fuel : Nat) (st : IterState), Inv st →
      (∀ s : Solution,
        WEvent.solutionEv s ∈ (solveRunFuel env fuel st).events →
          st.bestDifficulty ≤ s.difficulty ∧ 8 ≤ s.difficulty)
      ∧ List.Pairwise (fun a b => a ≤ b)
          (solEvDiffs (solveRunFuel env fuel st).events)
      ∧ (∀ s : Solution, (solveRunFuel env fuel st).result = some s →
          st.bestDifficulty ≤ s.difficulty ∧ 8 ≤ s.difficulty) := by
  intro fuel
  induction fuel with
  | zero =>
    intro st hInv
    refine ⟨?_, ?_, ?_⟩
    · intro s hs
      simp [solveRunFuel] at hs
    · simp [solveRunFuel, solEvDiffs]
    · intro s hs
      simp only [solveRunFuel] at hs
      rcases hInv.2 s hs with ⟨h1, h2⟩
      omega
  | succ fuel ih =>
    intro st hInv
    obtain ⟨hnone, hsome⟩ := hInv
    by_cases hc : st.nonce ≤ env.nonceEnd ∧ env.clock st.i < env.deadline
    · by_cases hw : env.wasmInit = true
      · -- recursive case
        simp only [solveRunFuel]
        rw [if_pos hc, if_pos hw]
        dsimp only
        rcases topEmission_cases st.bestSolution st.lastPostedSolution with
          ⟨hte1, hte2⟩ | ⟨b, hbsb, hte1, hte2⟩ <;>
          rcases updateBest_cases env.oracleDifficulty
              (env.hashWithMemory env.challengeArray (encodeNonce st.nonce))
              (encodeNonce st.nonce) env.challengeArray st.bestSolution
              st.bestDifficulty hnone with
            ⟨hub1, hub21, hub22⟩ | ⟨sol, hub1, hub21, hub22, hsol8, hsollt⟩
        -- no top emission; no improvement at this nonce
        · rw [hte1, hte2, hub1, hub21, hub22]
          have IH := ih ⟨st.bestSolution, st.bestDifficulty,
            st.lastPostedSolution,
            (statusThrottle (env.clock st.i) st.lastUpdateTime).2,
            st.nonce + 1, st.i + 1⟩ ⟨hnone, hsome⟩
          refine ⟨?_, ?_, ?_⟩
          · intro s hs
            rcases mem_append4 hs with hs | hs | hs | hs
            · simp at hs
            · simp at hs
            · exact absurd hs (statusThrottle_no_solution _ _ _)
            · exact IH.1 s hs
          · simp only [List.nil_append, solEvDiffs, List.filterMap_append]
            have h3 := solEvDiffs_statusThrottle (env.clock st.i)
              st.lastUpdateTime
            simp only [solEvDiffs] at h3
            rw [h3]
            simp only [List.append_nil, List.nil_append]
            exact IH.2.1
          · intro s hs
            exact IH.2.2 s hs
        -- no top emission; a new best solution is found
        · rw [hte1, hte2, hub1, hub21, hub22]
          have hInv' : Inv ⟨some sol, sol.difficulty, st.lastPostedSolution,
              (statusThrottle (env.clock st.i) st.lastUpdateTime).2,
              st.nonce + 1, st.i + 1⟩ := by
            refine ⟨fun h => Option.noConfusion h, fun b' hb' => ?_⟩
            cases hb'
            exact ⟨rfl, hsol8⟩
          have IH := ih _ hInv'
          refine ⟨?_, ?_, ?_⟩
          · intro s hs
            rcases mem_append4 hs with hs | hs | hs | hs
            · simp at hs
            · simp at hs
              subst hs
              exact ⟨le_of_lt hsollt, hsol8⟩
            · exact absurd hs (statusThrottle_no_solution _ _ _)
            · have h4 := IH.1 s hs
              exact ⟨le_trans (le_of_lt hsollt) h4.1, h4.2⟩
          · simp only [List.nil_append, solEvDiffs, List.filterMap_append,
              List.filterMap_cons, List.filterMap_nil]
            have h3 := solEvDiffs_statusThrottle (env.clock st.i)
              st.lastUpdateTime
            simp only [solEvDiffs] at h3
            rw [h3]
            simp only [List.append_nil, List.nil_append]
            refine pairwise_le_append_of_bounds sol.difficulty
              (List.pairwise_singleton _ _) ?_ ?_ IH.2.1
            · intro a ha
              simp at ha
              omega
            · intro d hd
              rcases mem_solEvDiffs.mp hd with ⟨t, ht, rfl⟩
              exact (IH.1 t ht).1
          · intro s hs
            have h4 := IH.2.2 s hs
            exact ⟨le_trans (le_of_lt hsollt) h4.1, h4.2⟩
        -- top emission fires; no improvement at this nonce
        · rw [hte1, hte2, hub1, hub21, hub22]
          obtain ⟨hb1, hb2⟩ := hsome b hbsb
          have IH := ih ⟨st.bestSolution, st.bestDifficulty, some b,
            (statusThrottle (env.clock st.i) st.lastUpdateTime).2,
            st.nonce + 1, st.i + 1⟩ ⟨hnone, hsome⟩
          refine ⟨?_, ?_, ?_⟩
          · intro s hs
            rcases mem_append4 hs with hs | hs | hs | hs
            · simp at hs
              subst hs
              exact ⟨by omega, by omega⟩
            · simp at hs
            · exact absurd hs (statusThrottle_no_solution _ _ _)
            · exact IH.1 s hs
          · simp only [solEvDiffs, List.filterMap_append, List.filterMap_cons,
              List.filterMap_nil]
            have h3 := solEvDiffs_statusThrottle (env.clock st.i)
              st.lastUpdateTime
            simp only [solEvDiffs] at h3
            rw [h3]
            simp only [List.append_nil, List.nil_append]
            refine pairwise_le_append_of_bounds st.bestDifficulty
              (List.pairwise_singleton _ _) ?_ ?_ IH.2.1
            · intro a ha
              simp at ha
              omega
            · intro d hd
              rcases mem_solEvDiffs.mp hd with ⟨t, ht, rfl⟩
              have h4 : st.bestDifficulty ≤ t.difficulty := (IH.1 t ht).1
              omega
          · intro s hs
            exact IH.2.2 s hs
        -- top emission fires and a new best is found
        · rw [hte1, hte2, hub1, hub21, hub22]
          obtain ⟨hb1, hb2⟩ := hsome b hbsb
          have hInv' : Inv ⟨some sol, sol.difficulty, some b,
              (statusThrottle (env.clock st.i) st.lastUpdateTime).2,
              st.nonce + 1, st.i + 1⟩ := by
            refine ⟨fun h => Option.noConfusion h, fun b' hb' => ?_⟩
            cases hb'
            exact ⟨rfl, hsol8⟩
          have IH := ih _ hInv'
          refine ⟨?_, ?_, ?_⟩
          · intro s hs
            rcases mem_append4 hs with hs | hs | hs | hs
            · simp at hs
              subst hs
              exact ⟨by omega, by omega⟩
            · simp at hs
              subst hs
              exact ⟨le_of_lt hsollt, hsol8⟩
            · exact absurd hs (statusThrottle_no_solution _ _ _)
            · have h4 := IH.1 s hs
              exact ⟨le_trans (le_of_lt hsollt) h4.1, h4.2⟩
          · simp only [solEvDiffs, List.filterMap_append, List.filterMap_cons,
              List.filterMap_nil]
            have h3 := solEvDiffs_statusThrottle (env.clock st.i)
              st.lastUpdateTime
            simp only [solEvDiffs] at h3
            rw [h3]
            simp only [List.append_nil, List.nil_append]
            refine pairwise_le_append_of_bounds sol.difficulty ?_ ?_ ?_ IH.2.1
            · refine List.pairwise_append.mpr
                ⟨List.pairwise_singleton _ _, List.pairwise_singleton _ _, ?_⟩
              intro a ha d hd
              simp at ha hd
              omega
            · intro a ha
              simp at ha
              rcases ha with ha | ha <;> omega
            · intro d hd
              rcases mem_solEvDiffs.mp hd with ⟨t, ht, rfl⟩
              exact (IH.1 t ht).1
          · intro s hs
            have h4 := IH.2.2 s hs
            exact ⟨le_trans (le_of_lt hsollt) h4.1, h4.2⟩
      · -- WASM memory missing: the run returns unresolved
        simp only [solveRunFuel]
        rw [if_pos hc, if_neg hw]
        dsimp only
        rcases topEmission_cases st.bestSolution st.lastPostedSolution with
          ⟨hte1, _⟩ | ⟨b, hbsb, hte1, _⟩
        · rw [hte1]
          refine ⟨?_, ?_, ?_⟩
          · intro s hs
            simp at hs
          · simp [solEvDiffs]
          · intro s hs
            simp at hs
        · rw [hte1]
          obtain ⟨hb1, hb2⟩ := hsome b hbsb
          refine ⟨?_, ?_, ?_⟩
          · intro s hs
            simp only [List.mem_append, List.mem_cons, List.not_mem_nil,
              or_false] at hs
            rcases hs with hs | hs
            · cases hs
              exact ⟨by omega, by omega⟩
            · simp at hs
          · simp [solEvDiffs]
          · intro s hs
            simp at hs
    · -- terminal call: deadline passed or range exhausted
      simp only [solveRunFuel]
      rw [if_neg hc]
      dsimp only
      rcases hbs : st.bestSolution with _ | b
      · simp only [topEmission]
        refine ⟨?_, ?_, ?_⟩
        · intro s hs
          simp [finalStatus] at hs
        · simp [finalStatus, solEvDiffs]
        · intro s hs
          simp at hs
      · obtain ⟨hb1, hb2⟩ := hsome b hbs
        rcases topEmission_cases (some b) st.lastPostedSolution with
          ⟨hte1, _⟩ | ⟨b', hbb', hte1, _⟩
        · rw [hte1]
          refine ⟨?_, ?_, ?_⟩
          · intro s hs
            simp [finalStatus] at hs
          · simp [finalStatus, solEvDiffs]
          · intro s hs
            replace hs : some b = some s := hs
            cases hs
            exact ⟨by omega, by omega⟩
        · cases hbb'
          rw [hte1]
          refine ⟨?_, ?_, ?_⟩
          · intro s hs
            simp only [List.mem_append, List.mem_cons, List.not_mem_nil,
              or_false] at hs
            rcases hs with hs | hs
            · cases hs
              exact ⟨by omega, by omega⟩
            · simp [finalStatus] at hs
          · simp [finalStatus, solEvDiffs]
          · intro s hs
            replace hs : some b = some s := hs
            cases hs
            exact ⟨by omega, by omega⟩

/-! ### Replacement and tracking lemmas -/

theorem trackBest_mono (best : Option Solution) (m : WEvent) :
    trackedDifficulty best ≤ trackedDifficulty (trackBest best m) := by
  cases m with
  | statusEv s => simp [trackBest]
  | solutionEv s =>
    cases best with
    | none => simp [trackBest, trackedDifficulty]
    | some b =>
      simp only [trackBest]
      by_cases h : b.difficulty < s.difficulty
      · rw [if_pos h]
        simp only [trackedDifficulty]
        omega
      · rw [if_neg h]

theorem trackBest_foldl_mono (msgs : List WEvent) :
    ∀ best : Option Solution,
      trackedDifficulty best ≤ trackedDifficulty (msgs.foldl trackBest best) := by
  induction msgs with
  | nil => intro best; simp
  | cons m rest ih =>
    intro best
    exact le_trans (trackBest_mono best m) (ih (trackBest best m))

theorem updateBest_replace_iff (dFn : Bytes → Nat) (d h nb cA : Bytes)
    (b : Solution) (bd : Nat) (hbd : b.difficulty = bd) (h8 : 8 ≤ bd) :
    (updateBest dFn (HashResult.ok d h) nb cA (some b) bd).2.1 ≠ some b
      ↔ bd < dFn h := by
  simp only [updateBest]
  by_cases g : target ≤ dFn h ∧ (some b = none ∨ bd < dFn h)
  · rw [if_pos g]
    dsimp only
    constructor
    · intro _
      rcases g.2 with hn | hlt
      · cases hn
      · exact hlt
    · intro hlt heq
      injection heq with heq
      have hd : dFn h = b.difficulty := congrArg Solution.difficulty heq
      omega
  · rw [if_neg g]
    dsimp only
    constructor
    · intro hne
      exact absurd rfl hne
    · intro hlt
      exfalso
      apply g
      refine ⟨?_, Or.inr hlt⟩
      show target ≤ dFn h
      simp only [target]
      omega

/-- The initial loop state satisfies the basic invariant. -/
theorem Inv_initState (env : WorkerEnv) : Inv (initState env) :=
  ⟨fun _ => rfl, fun _ hb => Option.noConfusion hb⟩

/-! ### Claim C3: sub-target solutions are never retained or emitted -/

/-- C3: a solution whose difficulty is below the fixed target 8 is never
retained as the best solution and never posted as a `solution` event;
`solveChallenge` resolves with null rather than any sub-target solution
(every posted solution and any resolved solution has difficulty ≥ 8). -/
theorem below_target_never_retained_C3 :
    ∀ env : WorkerEnv,
      (∀ s : Solution, WEvent.solutionEv s ∈ (solveChallenge env).events →
        8 ≤ s.difficulty)
      ∧ (∀ s : Solution, (solveChallenge env).result = some s →
        8 ≤ s.difficulty) := by
  intro env
  have h := solveRunFuel_mono env (workerFuel env) (initState env)
    (Inv_initState env)
  exact ⟨fun s hs => (h.1 s hs).2, fun s hs => (h.2.2 s hs).2⟩

/-- Witness for C3 at a concrete one-nonce environment that finds a
difficulty-9 solution. -/
theorem below_target_never_retained_C3_witness :
    8 ≤ sol0.difficulty ∧ 8 ≤ sol0.difficulty :=
  ⟨(below_target_never_retained_C3 env0).1 sol0 (by decide),
   (below_target_never_retained_C3 env0).2 sol0 (by decide)⟩

/-! ### Claim C2: monotonic replacement of the best solution -/

/-- C2: (1) the difficulties of the `solution` events of a worker run
are non-decreasing; (2) with a retained best solution of difficulty
`bd ≥ 8`, a hashed nonce replaces it iff its difficulty is strictly
greater than `bd`; (3) the worker's retained best difficulty never
decreases over the rest of a run (from any invariant-satisfying state);
(4) the orchestrator's tracked best difficulty (`runWorker` message
handler) never decreases while folding worker messages. -/
theorem monotonic_replacement_C2 :
    (∀ env : WorkerEnv, List.Pairwise (fun a b => a ≤ b)
      (solEvDiffs (solveChallenge env).events))
    ∧ (∀ (dFn : Bytes → Nat) (d h nb cA : Bytes) (b : Solution) (bd : Nat),
        b.difficulty = bd → 8 ≤ bd →
        ((updateBest dFn (HashResult.ok d h) nb cA (some b) bd).2.1 ≠ some b
          ↔ bd < dFn h))
    ∧ (∀ (env : WorkerEnv) (fuel : Nat) (st : IterState), Inv st →
        ∀ s : Solution, (solveRunFuel env fuel st).result = some s →
          st.bestDifficulty ≤ s.difficulty)
    ∧ (∀ (msgs : List WEvent) (best : Option Solution),
        trackedDifficulty best ≤ trackedDifficulty (msgs.foldl trackBest best)) := by
  refine ⟨?_, ?_, ?_, ?_⟩
  · intro env
    exact (solveRunFuel_mono env (workerFuel env) (initState env)
      (Inv_initState env)).2.1
  · intro dFn d h nb cA b bd hbd h8
    exact updateBest_replace_iff dFn d h nb cA b bd hbd h8
  · intro env fuel st hInv s hs
    exact ((solveRunFuel_mono env fuel st hInv).2.2 s hs).1
  · intro msgs best
    exact trackBest_foldl_mono msgs best

/-- Witness for C2: the replacement criterion, run-level result bound
and fold monotonicity instantiated at concrete inputs. -/
theorem monotonic_replacement_C2_witness :
    ((updateBest (fun _ => 9) (HashResult.ok [] []) (encodeNonce 1) chal32
        (some sol0) 9).2.1 ≠ some sol0 ↔ 9 < 9)
    ∧ (initState env0).bestDifficulty ≤ sol0.difficulty
    ∧ trackedDifficulty (some sol0) ≤
        trackedDifficulty ([WEvent.statusEv "done"].foldl trackBest (some sol0)) :=
  ⟨monotonic_replacement_C2.2.1 (fun _ => 9) [] [] (encodeNonce 1) chal32
      sol0 9 rfl (by decide),
   monotonic_replacement_C2.2.2.1 env0 (workerFuel env0) (initState env0)
      (Inv_initState env0) sol0 (by decide),
   monotonic_replacement_C2.2.2.2 [WEvent.statusEv "done"] (some sol0)⟩

/-! ### Counting solution events -/

theorem countSol_two (s t : Solution) (m : String) :
    countSol s [WEvent.solutionEv t, WEvent.statusEv m] =
      if t = s then 1 else 0 := by
  by_cases h : t = s <;> simp [countSol, List.count_cons, h]

theorem countSol_finalStatus (s : Solution) (bs : Option Solution) :
    countSol s [finalStatus bs] = 0 := by
  cases bs <;> simp [finalStatus, countSol, List.count_cons]

theorem countSol_slice (s : Solution) (l₁ l₂ l₃ l₄ : List WEvent) :
    countSol s (l₁ ++ l₂ ++ l₃ ++ l₄) =
      countSol s l₁ + countSol s l₂ + countSol s l₃ + countSol s l₄ := by
  simp only [countSol, List.count_append]

theorem some_ne_some {a c : Solution} (h : a ≠ c) :
    (some a : Option Solution) ≠ some c :=
  fun he => h (Option.some.inj he)

theorem topEmission_fire (b : Solution) (lp : Option Solution)
    (hfire : ∀ l, lp = some l → l.difficulty < b.difficulty) :
    topEmission (some b) lp = ([WEvent.solutionEv b], some b) := by
  cases lp with
  | none => rfl
  | some l => simp [topEmission, hfire l rfl]

theorem topEmission_skip (b l : Solution)
    (hskip : ¬ l.difficulty < b.difficulty) :
    topEmission (some b) (some l) = ([], some l) := by
  simp [topEmission, hskip]

/-- Counting invariant of the worker loop: starting from a well-formed
state and given enough fuel to finish, a pending best solution is
posted exactly once more; a best solution already recorded as posted is
never posted again; a solution at most as hard as the current best and
different from it is never posted; and any solution strictly harder
than the current best is posted either never or exactly twice. -/
theorem solveRunFuel_count (env : WorkerEnv) (hw : env.wasmInit = true) :
    ∀ (fuel : Nat) (st : IterState), Wf st →
      1 ≤ fuel → env.nonceEnd + 2 ≤ fuel + st.nonce →
      ∀ s : Solution,
        (pendingBest st s →
          countSol s (solveRunFuel env fuel st).events = 1)
        ∧ (st.bestSolution = some s → ¬ pendingBest st s →
          countSol s (solveRunFuel env fuel st).events = 0)
        ∧ (st.bestSolution ≠ some s → s.difficulty ≤ st.bestDifficulty →
          countSol s (solveRunFuel env fuel st).events = 0)
        ∧ (st.bestDifficulty < s.difficulty →
          countSol s (solveRunFuel env fuel st).events = 0 ∨
          countSol s (solveRunFuel env fuel st).events = 2) := by
  intro fuel
  induction fuel with
  | zero =>
    intro st _ h1 _ s
    exact absurd h1 (by omega)
  | succ fuel ih =>
    intro st hWf h1 hadq s
    obtain ⟨⟨hnone, hsome⟩, hlp⟩ := hWf
    by_cases hc : st.nonce ≤ env.nonceEnd ∧ env.clock st.i < env.deadline
    · -- recursive case
      have hfuel1 : 1 ≤ fuel := by omega
      have hadq' : env.nonceEnd + 2 ≤ fuel + (st.nonce + 1) := by omega
      simp only [solveRunFuel]
      rw [if_pos hc, if_pos hw]
      dsimp only
      rcases hbs : st.bestSolution with _ | b
      · -- no best solution yet
        have hbd0 : st.bestDifficulty = 0 := hnone hbs
        have hlpn : st.lastPostedSolution = none := by
          cases hlpe : st.lastPostedSolution with
          | none => rfl
          | some l => exact absurd hbs (hlp l hlpe).2
        rw [show (topEmission none st.lastPostedSolution).1 = [] from rfl,
          show (topEmission none st.lastPostedSolution).2 =
            st.lastPostedSolution from rfl, hlpn]
        rcases updateBest_cases env.oracleDifficulty
            (env.hashWithMemory env.challengeArray (encodeNonce st.nonce))
            (encodeNonce st.nonce) env.challengeArray none
            st.bestDifficulty (fun _ => hbd0) with
          ⟨hub1, hub21, hub22⟩ | ⟨sol, hub1, hub21, hub22, hsol8, hsollt⟩
        · -- no improvement
          rw [hub1, hub21, hub22]
          have IH := ih ⟨none, st.bestDifficulty, none,
            (statusThrottle (env.clock st.i) st.lastUpdateTime).2,
            st.nonce + 1, st.i + 1⟩
            ⟨⟨fun _ => hbd0, fun _ hb => Option.noConfusion hb⟩,
             fun _ hlpe => Option.noConfusion hlpe⟩ hfuel1 hadq'
          refine ⟨?_, ?_, ?_, ?_⟩
          · intro hp
            have hp1 := hp.1
            rw [hbs] at hp1
            exact Option.noConfusion hp1
          · intro hbs2 _
            exact Option.noConfusion hbs2
          · intro _ hle
            simp only [countSol_slice, countSol_nil, countSol_nil,
              countSol_statusThrottle]
            have h0 := (IH s).2.2.1 (fun h => Option.noConfusion h) hle
            omega
          · intro hlt
            simp only [countSol_slice, countSol_nil, countSol_nil,
              countSol_statusThrottle]
            rcases (IH s).2.2.2 hlt with h0 | h2
            · left; omega
            · right; omega
        · -- a first best solution appears
          rw [hub1, hub21, hub22]
          have hpend' : pendingBest ⟨some sol, sol.difficulty, none,
              (statusThrottle (env.clock st.i) st.lastUpdateTime).2,
              st.nonce + 1, st.i + 1⟩ sol :=
            ⟨rfl, fun _ hlpe => Option.noConfusion hlpe⟩
          have IH := ih ⟨some sol, sol.difficulty, none,
            (statusThrottle (env.clock st.i) st.lastUpdateTime).2,
            st.nonce + 1, st.i + 1⟩
            ⟨⟨fun h => Option.noConfusion h,
              fun b' hb' => by cases hb'; exact ⟨rfl, hsol8⟩⟩,
             fun _ hlpe => Option.noConfusion hlpe⟩ hfuel1 hadq'
          refine ⟨?_, ?_, ?_, ?_⟩
          · intro hp
            have hp1 := hp.1
            rw [hbs] at hp1
            exact Option.noConfusion hp1
          · intro hbs2 _
            exact Option.noConfusion hbs2
          · intro _ hle
            have hsne : sol ≠ s := ne_of_difficulty_ne (by omega)
            simp only [countSol_slice, countSol_nil, countSol_two,
              countSol_statusThrottle, if_neg hsne]
            have h0 := (IH s).2.2.1 (some_ne_some hsne) (show s.difficulty ≤ sol.difficulty by omega)
            omega
          · intro hlt
            by_cases hss : sol = s
            · subst hss
              simp only [countSol_slice, countSol_nil, countSol_two,
                countSol_statusThrottle, eq_self_iff_true, if_true]
              have hp1 := (IH sol).1 hpend'
              right
              omega
            · simp only [countSol_slice, countSol_nil, countSol_two,
                countSol_statusThrottle, if_neg hss]
              by_cases hsd : s.difficulty ≤ sol.difficulty
              · have h0 := (IH s).2.2.1 (some_ne_some hss) hsd
                left; omega
              · rcases (IH s).2.2.2 (show sol.difficulty < s.difficulty by omega) with h0 | h2
                · left; omega
                · right; omega
      · -- a best solution b is retained
        obtain ⟨hb1, hb2⟩ := hsome b hbs
        by_cases hfire : ∀ l, st.lastPostedSolution = some l →
            l.difficulty < b.difficulty
        · -- the top emission block fires and posts b
          have hte := topEmission_fire b st.lastPostedSolution hfire
          rw [hte]
          dsimp only
          rcases updateBest_cases env.oracleDifficulty
              (env.hashWithMemory env.challengeArray (encodeNonce st.nonce))
              (encodeNonce st.nonce) env.challengeArray (some b)
              st.bestDifficulty (fun h => Option.noConfusion h) with
            ⟨hub1, hub21, hub22⟩ | ⟨sol, hub1, hub21, hub22, hsol8, hsollt⟩
          · -- no improvement
            rw [hub1, hub21, hub22]
            have IH := ih ⟨some b, st.bestDifficulty, some b,
              (statusThrottle (env.clock st.i) st.lastUpdateTime).2,
              st.nonce + 1, st.i + 1⟩
              ⟨⟨fun h => Option.noConfusion h,
                fun b' hb' => by cases hb'; exact ⟨hb1, hb2⟩⟩,
               fun lp' hlpe' => by
                cases hlpe'
                exact ⟨le_of_eq hb1, fun h => Option.noConfusion h⟩⟩
              hfuel1 hadq'
            refine ⟨?_, ?_, ?_, ?_⟩
            · intro hp
              have hsb : b = s := by
                have := hp.1
                rw [hbs] at this
                exact Option.some.inj this
              subst hsb
              simp only [countSol_slice, countSol_single_sol, countSol_nil,
                countSol_statusThrottle, eq_self_iff_true, if_true]
              have h0 := (IH b).2.1 rfl
                (fun hp' => absurd (hp'.2 b rfl) (lt_irrefl _))
              omega
            · intro hbs2 hnp
              have hsb : b = s := Option.some.inj hbs2
              subst hsb
              exact absurd ⟨hbs, fun l hl => hfire l hl⟩ hnp
            · intro hne hle
              have hbne : b ≠ s := fun he => hne (he ▸ rfl)
              simp only [countSol_slice, countSol_single_sol, countSol_nil,
                countSol_statusThrottle, if_neg hbne]
              have h0 := (IH s).2.2.1 (some_ne_some hbne) hle
              omega
            · intro hlt
              have hbne : b ≠ s := ne_of_difficulty_ne (by omega)
              simp only [countSol_slice, countSol_single_sol, countSol_nil,
                countSol_statusThrottle, if_neg hbne]
              rcases (IH s).2.2.2 hlt with h0 | h2
              · left; omega
              · right; omega
          · -- improvement to sol
            rw [hub1, hub21, hub22]
            have hsolb : sol ≠ b := ne_of_difficulty_ne (by omega)
            have IH := ih ⟨some sol, sol.difficulty, some b,
              (statusThrottle (env.clock st.i) st.lastUpdateTime).2,
              st.nonce + 1, st.i + 1⟩
              ⟨⟨fun h => Option.noConfusion h,
                fun b' hb' => by cases hb'; exact ⟨rfl, hsol8⟩⟩,
               fun lp' hlpe' => by
                cases hlpe'
                refine ⟨?_, fun h => Option.noConfusion h⟩
                show _ ≤ sol.difficulty
                omega⟩
              hfuel1 hadq'
            refine ⟨?_, ?_, ?_, ?_⟩
            · intro hp
              have hsb : b = s := by
                have := hp.1
                rw [hbs] at this
                exact Option.some.inj this
              subst hsb
              simp only [countSol_slice, countSol_single_sol, countSol_two,
                countSol_statusThrottle, eq_self_iff_true, if_true, if_neg hsolb]
              have h0 := (IH b).2.2.1 (some_ne_some hsolb) (show b.difficulty ≤ sol.difficulty by omega)
              omega
            · intro hbs2 hnp
              have hsb : b = s := Option.some.inj hbs2
              subst hsb
              exact absurd ⟨hbs, fun l hl => hfire l hl⟩ hnp
            · intro hne hle
              have hbne : b ≠ s := fun he => hne (he ▸ rfl)
              have hsne : sol ≠ s := ne_of_difficulty_ne (by omega)
              simp only [countSol_slice, countSol_single_sol, countSol_two,
                countSol_statusThrottle, if_neg hbne, if_neg hsne]
              have h0 := (IH s).2.2.1 (some_ne_some hsne) (show s.difficulty ≤ sol.difficulty by omega)
              omega
            · intro hlt
              have hbne : b ≠ s := ne_of_difficulty_ne (by omega)
              by_cases hss : sol = s
              · subst hss
                simp only [countSol_slice, countSol_single_sol, countSol_two,
                  countSol_statusThrottle, if_neg hbne, eq_self_iff_true, if_true]
                have hp1 := (IH sol).1
                  ⟨rfl, fun lp' hlpe' => by cases hlpe'; omega⟩
                right
                omega
              · simp only [countSol_slice, countSol_single_sol, countSol_two,
                  countSol_statusThrottle, if_neg hbne, if_neg hss]
                by_cases hsd : s.difficulty ≤ sol.difficulty
                · have h0 := (IH s).2.2.1 (some_ne_some hss) hsd
                  left; omega
                · rcases (IH s).2.2.2 (show sol.difficulty < s.difficulty by omega) with h0 | h2
                  · left; omega
                  · right; omega
        · -- the top emission block does not fire
          push_neg at hfire
          obtain ⟨l, hl, hnl⟩ := hfire
          replace hnl : ¬ l.difficulty < b.difficulty := not_lt.mpr hnl
          have hte := topEmission_skip b l hnl
          rw [hl, hte]
          dsimp only
          have hlb := (hlp l hl).1
          rcases updateBest_cases env.oracleDifficulty
              (env.hashWithMemory env.challengeArray (encodeNonce st.nonce))
              (encodeNonce st.nonce) env.challengeArray (some b)
              st.bestDifficulty (fun h => Option.noConfusion h) with
            ⟨hub1, hub21, hub22⟩ | ⟨sol, hub1, hub21, hub22, hsol8, hsollt⟩
          · -- no improvement
            rw [hub1, hub21, hub22]
            have IH := ih ⟨some b, st.bestDifficulty, some l,
              (statusThrottle (env.clock st.i) st.lastUpdateTime).2,
              st.nonce + 1, st.i + 1⟩
              ⟨⟨fun h => Option.noConfusion h,
                fun b' hb' => by cases hb'; exact ⟨hb1, hb2⟩⟩,
               fun lp' hlpe' => by
                cases hlpe'
                exact ⟨hlb, fun h => Option.noConfusion h⟩⟩
              hfuel1 hadq'
            refine ⟨?_, ?_, ?_, ?_⟩
            · intro hp
              have hsb : b = s := by
                have := hp.1
                rw [hbs] at this
                exact Option.some.inj this
              subst hsb
              exact absurd (hp.2 l hl) hnl
            · intro hbs2 _
              have hsb : b = s := Option.some.inj hbs2
              subst hsb
              simp only [countSol_slice, countSol_nil, countSol_nil,
                countSol_statusThrottle]
              have h0 := (IH b).2.1 rfl
                (fun hp' => absurd (hp'.2 l rfl) (by omega))
              omega
            · intro hne hle
              have hbne : b ≠ s := fun he => hne (he ▸ rfl)
              simp only [countSol_slice, countSol_nil, countSol_nil,
                countSol_statusThrottle]
              have h0 := (IH s).2.2.1 (some_ne_some hbne) hle
              omega
            · intro hlt
              simp only [countSol_slice, countSol_nil, countSol_nil,
                countSol_statusThrottle]
              rcases (IH s).2.2.2 hlt with h0 | h2
              · left; omega
              · right; omega
          · -- improvement to sol
            rw [hub1, hub21, hub22]
            have hsolb : sol ≠ b := ne_of_difficulty_ne (by omega)
            have IH := ih ⟨some sol, sol.difficulty, some l,
              (statusThrottle (env.clock st.i) st.lastUpdateTime).2,
              st.nonce + 1, st.i + 1⟩
              ⟨⟨fun h => Option.noConfusion h,
                fun b' hb' => by cases hb'; exact ⟨rfl, hsol8⟩⟩,
               fun lp' hlpe' => by
                cases hlpe'
                refine ⟨?_, fun h => Option.noConfusion h⟩
                show _ ≤ sol.difficulty
                omega⟩
              hfuel1 hadq'
            refine ⟨?_, ?_, ?_, ?_⟩
            · intro hp
              have hsb : b = s := by
                have := hp.1
                rw [hbs] at this
                exact Option.some.inj this
              subst hsb
              exact absurd (hp.2 l hl) hnl
            · intro hbs2 _
              have hsb : b = s := Option.some.inj hbs2
              subst hsb
              simp only [countSol_slice, countSol_nil, countSol_two,
                countSol_statusThrottle, if_neg hsolb]
              have h0 := (IH b).2.2.1 (some_ne_some hsolb) (show b.difficulty ≤ sol.difficulty by omega)
              omega
            · intro hne hle
              have hbne : b ≠ s := fun he => hne (he ▸ rfl)
              have hsne : sol ≠ s := ne_of_difficulty_ne (by omega)
              simp only [countSol_slice, countSol_nil, countSol_two,
                countSol_statusThrottle, if_neg hsne]
              have h0 := (IH s).2.2.1 (some_ne_some hsne) (show s.difficulty ≤ sol.difficulty by omega)
              omega
            · intro hlt
              by_cases hss : sol = s
              · subst hss
                simp only [countSol_slice, countSol_nil, countSol_two,
                  countSol_statusThrottle, eq_self_iff_true, if_true]
                have hp1 := (IH sol).1
                  ⟨rfl, fun lp' hlpe' => by cases hlpe'; omega⟩
                right
                omega
              · simp only [countSol_slice, countSol_nil, countSol_two,
                  countSol_statusThrottle, if_neg hss]
                by_cases hsd : s.difficulty ≤ sol.difficulty
                · have h0 := (IH s).2.2.1 (some_ne_some hss) hsd
                  left; omega
                · rcases (IH s).2.2.2 (show sol.difficulty < s.difficulty by omega) with h0 | h2
                  · left; omega
                  · right; omega
    · -- terminal call
      simp only [solveRunFuel]
      rw [if_neg hc]
      dsimp only
      rcases hbs : st.bestSolution with _ | b
      · rw [show (topEmission none st.lastPostedSolution).1 = [] from rfl]
        refine ⟨?_, ?_, ?_, ?_⟩
        · intro hp
          have hp1 := hp.1
          rw [hbs] at hp1
          exact Option.noConfusion hp1
        · intro hbs2 _
          exact Option.noConfusion hbs2
        · intro _ _
          rw [show ([] : List WEvent) ++ [finalStatus none] =
            [finalStatus none] from rfl, countSol_finalStatus]
        · intro _
          left
          rw [show ([] : List WEvent) ++ [finalStatus none] =
            [finalStatus none] from rfl, countSol_finalStatus]
      · obtain ⟨hb1, hb2⟩ := hsome b hbs
        by_cases hfire : ∀ l, st.lastPostedSolution = some l →
            l.difficulty < b.difficulty
        · have hte := topEmission_fire b st.lastPostedSolution hfire
          rw [hte]
          dsimp only
          refine ⟨?_, ?_, ?_, ?_⟩
          · intro hp
            have hsb : b = s := by
              have := hp.1
              rw [hbs] at this
              exact Option.some.inj this
            subst hsb
            rw [show [WEvent.solutionEv b] ++ [finalStatus (some b)] =
              WEvent.solutionEv b :: [finalStatus (some b)] from rfl]
            rw [countSol, List.count_cons]
            have : countSol b [finalStatus (some b)] = 0 :=
              countSol_finalStatus b (some b)
            rw [countSol] at this
            simp [this]
          · intro hbs2 hnp
            have hsb : b = s := Option.some.inj hbs2
            subst hsb
            exact absurd ⟨hbs, fun l hl => hfire l hl⟩ hnp
          · intro hne hle
            have hbne : b ≠ s := fun he => hne (he ▸ rfl)
            rw [show [WEvent.solutionEv b] ++ [finalStatus (some b)] =
              WEvent.solutionEv b :: [finalStatus (some b)] from rfl]
            rw [countSol, List.count_cons]
            have h0 : countSol s [finalStatus (some b)] = 0 :=
              countSol_finalStatus s (some b)
            rw [countSol] at h0
            rw [h0]
            simp [hbne]
          · intro hlt
            have hbne : b ≠ s := ne_of_difficulty_ne (by omega)
            left
            rw [show [WEvent.solutionEv b] ++ [finalStatus (some b)] =
              WEvent.solutionEv b :: [finalStatus (some b)] from rfl]
            rw [countSol, List.count_cons]
            have h0 : countSol s [finalStatus (some b)] = 0 :=
              countSol_finalStatus s (some b)
            rw [countSol] at h0
            rw [h0]
            simp [hbne]
        · push_neg at hfire
          obtain ⟨l, hl, hnl⟩ := hfire
          replace hnl : ¬ l.difficulty < b.difficulty := not_lt.mpr hnl
          have hte := topEmission_skip b l hnl
          rw [hl, hte]
          dsimp only
          refine ⟨?_, ?_, ?_, ?_⟩
          · intro hp
            have hsb : b = s := by
              have := hp.1
              rw [hbs] at this
              exact Option.some.inj this
            subst hsb
            exact absurd (hp.2 l hl) hnl
          · intro _ _
            rw [show ([] : List WEvent) ++ [finalStatus (some b)] =
              [finalStatus (some b)] from rfl, countSol_finalStatus]
          · intro _ _
            rw [show ([] : List WEvent) ++ [finalStatus (some b)] =
              [finalStatus (some b)] from rfl, countSol_finalStatus]
          · intro _
            left
            rw [show ([] : List WEvent) ++ [finalStatus (some b)] =
              [finalStatus (some b)] from rfl, countSol_finalStatus]

/-! ### Claim C10: every improvement is posted exactly twice -/

/-- C10: in a completed worker run (WASM memory initialized), every
solution that appears as a `solution` event appears exactly twice: once
immediately at discovery and once at the start of the next iteration,
because `lastPostedSolution` is updated only in the top-of-iteration
emission block, never at discovery. -/
theorem improvement_double_emission_C10 :
    ∀ env : WorkerEnv, env.wasmInit = true →
      ∀ s : Solution, WEvent.solutionEv s ∈ (solveChallenge env).events →
        countSol s (solveChallenge env).events = 2 := by
  intro env hw s hs
  have hWf : Wf (initState env) :=
    ⟨Inv_initState env, fun _ hlpe => Option.noConfusion hlpe⟩
  have h1 : 1 ≤ workerFuel env := by
    unfold workerFuel
    omega
  have hadq : env.nonceEnd + 2 ≤ workerFuel env + (initState env).nonce := by
    show env.nonceEnd + 2 ≤ workerFuel env + env.nonceStart
    unfold workerFuel
    omega
  have hcnt := solveRunFuel_count env hw (workerFuel env) (initState env)
    hWf h1 hadq s
  have hpos : 0 < countSol s (solveChallenge env).events :=
    countSol_pos_of_mem hs
  by_cases hd : s.difficulty = 0
  · have h0 : countSol s (solveChallenge env).events = 0 :=
      hcnt.2.2.1 (fun h => Option.noConfusion h)
        (show s.difficulty ≤ 0 by omega)
    omega
  · rcases hcnt.2.2.2 (show (0 : Nat) < s.difficulty by omega) with h0 | h2
    · have h0' : countSol s (solveChallenge env).events = 0 := h0
      omega
    · exact h2

/-- Witness for C10: in the concrete one-nonce run of `env0`, the
discovered solution is posted exactly twice. -/
theorem improvement_double_emission_C10_witness :
    countSol sol0 (solveChallenge env0).events = 2 :=
  improvement_double_emission_C10 env0 rfl sol0 (by decide)

/-! ### Characterizations of the orchestrator round -/

theorem getChallenge_throw (sid : Option String) (m : String) (now : Int) :
    getChallenge sid (FetchOutcome.throwErr m) now =
      ([LAction.status "Fetching challenge", LAction.sleep 1000,
        LAction.fetchCall, LAction.status "Error fetching challenge",
        LAction.sleep 30000], FetchRet.nullRet, sid) := rfl

theorem solveRound_fetchFail (cfg : SolverConfig) (renv : RoundEnv)
    (fst : Bool) (sid : Option String) (m : String)
    (hf : renv.fetch = FetchOutcome.throwErr m) :
    solveRound cfg renv fst sid =
      ⟨(if fst then [LAction.sleep 500] else []) ++
        [LAction.status "Fetching challenge", LAction.sleep 1000,
         LAction.fetchCall, LAction.status "Error fetching challenge",
         LAction.sleep 30000,
         LAction.status "Failed to get challenge, retrying",
         LAction.sleep cfg.retryDelay], sid, false⟩ := by
  unfold solveRound roundBody
  rw [hf, getChallenge_throw]
  rfl

theorem solveRound_catch (cfg : SolverConfig) (renv : RoundEnv)
    (fst : Bool) (sid : Option String) (e : CaughtErr)
    (h : roundBody cfg renv sid = Except.error e) :
    solveRound cfg renv fst sid =
      ⟨(if fst then [LAction.sleep 500] else []) ++ e.acts ++
        [LAction.status "Error in solving loop", LAction.sleep 5000],
       e.storedId, false⟩ := by
  unfold solveRound
  rw [h]

theorem solveRound_cases (cfg : SolverConfig) (renv : RoundEnv)
    (fst : Bool) (sid : Option String) :
    LAction.fetchCall ∈ (solveRound cfg renv fst sid).acts
    ∧ ((solveRound cfg renv fst sid).broke = true →
      renv.contAfterFetch = false ∨ renv.contAfterSubmit = false) := by
  unfold solveRound roundBody getChallenge
  rcases hfc : renv.fetch with m | nci | c
  · constructor <;> simp
  · constructor <;> simp
  · cases hcaf : renv.contAfterFetch
    · constructor <;> simp
    · rcases hrw : renv.runWorkerOutcome with e | sol
      · constructor <;> simp
      · rcases sol with _ | s
        · cases hcas : renv.contAfterSubmit
          · constructor <;> simp
          · constructor <;> simp
        · cases hcas : renv.contAfterSubmit
          · constructor <;> simp
          · constructor <;> simp

theorem solveRound_continues (cfg : SolverConfig) (renv : RoundEnv)
    (fst : Bool) (sid : Option String)
    (h1 : renv.contAfterFetch = true) (h2 : renv.contAfterSubmit = true) :
    (solveRound cfg renv fst sid).broke = false := by
  cases hb : (solveRound cfg renv fst sid).broke
  · rfl
  · rcases (solveRound_cases cfg renv fst sid).2 hb with hf | hs
    · rw [h1] at hf
      cases hf
    · rw [h2] at hs
      cases hs

theorem loopRounds_halted (cfg : SolverConfig) (renvs : Nat → RoundEnv) :
    ∀ (fuel k : Nat) (sid : Option String),
      (loopRounds cfg renvs k fuel sid).halted = true →
      ∃ j, (renvs j).contAtLoop = false ∨ (renvs j).contAfterFetch = false ∨
        (renvs j).contAfterSubmit = false := by
  intro fuel
  induction fuel with
  | zero =>
    intro k sid h
    simp [loopRounds] at h
  | succ fuel ih =>
    intro k sid h
    simp only [loopRounds] at h
    by_cases hcl : (renvs k).contAtLoop = false
    · exact ⟨k, Or.inl hcl⟩
    · rw [if_neg hcl] at h
      cases hb : (solveRound cfg (renvs k) (decide (k = 0)) sid).broke
      · rw [hb] at h
        simp only [Bool.false_eq_true, if_false] at h
        exact ih (k + 1) _ h
      · rcases (solveRound_cases cfg (renvs k) (decide (k = 0)) sid).2 hb with
          hf | hs
        · exact ⟨k, Or.inr (Or.inl hf)⟩
        · exact ⟨k, Or.inr (Or.inr hs)⟩

/-! ### Claim C1: device-gate decision of the solve loop -/

/-- C1: the solve loop enters the challenge-fetching phase iff the
device tier is numerically below `performanceThreshold`; when the tier
is at or above the threshold, the whole run performs no action at all
(no fetch, no worker dispatch, no submission) and returns (halts)
without error. -/
theorem device_gate_C1 :
    ∀ (cfg : SolverConfig) (renvs : Nat → RoundEnv) (category fuel : Nat),
      (cfg.performanceThreshold ≤ category →
        solveLoop cfg renvs category fuel = ⟨[], true⟩)
      ∧ (category < cfg.performanceThreshold → (renvs 0).contAtLoop = true →
        1 ≤ fuel →
        LAction.fetchCall ∈ (solveLoop cfg renvs category fuel).acts) := by
  intro cfg renvs category fuel
  constructor
  · intro h
    unfold solveLoop
    rw [if_neg (by omega)]
  · intro h hflag hfuel
    obtain ⟨f, rfl⟩ : ∃ f, fuel = f + 1 := ⟨fuel - 1, by omega⟩
    unfold solveLoop
    rw [if_pos h]
    simp only [loopRounds]
    rw [if_neg (by simp [hflag])]
    split
    · exact (solveRound_cases cfg (renvs 0) _ none).1
    · exact List.mem_append_left _ (solveRound_cases cfg (renvs 0) _ none).1

/-- Witness for C1: with tier 5 ≥ threshold 3 the loop does nothing and
halts; with tier 1 < 3 and the stop flag set the trace reaches the
fetch call. -/
theorem device_gate_C1_witness :
    solveLoop defaultConfig renvsConst 5 7 = ⟨[], true⟩
    ∧ LAction.fetchCall ∈ (solveLoop defaultConfig renvsConst 1 1).acts :=
  ⟨(device_gate_C1 defaultConfig renvsConst 5 7).1 (by decide),
   (device_gate_C1 defaultConfig renvsConst 1 1).2 (by decide) rfl (by decide)⟩

/-! ### Claim C7: no exception escapes the solve loop -/

/-- C7: (1) whatever the round's outcomes (fetch failure, not-ready,
worker error, submission failure), a round with the stop flag set
continues to the next round; (2) a thrown round body is caught: the
loop reports the error via status, sleeps 5 s, and continues rather
than propagating; (3) the loop halts only because of the one-time
device-gate exclusion or because some `shouldContinueSolving` reading
is false (an explicit `stop()`). -/
theorem no_exception_escapes_C7 :
    (∀ (cfg : SolverConfig) (renv : RoundEnv) (fst : Bool)
      (sid : Option String),
      renv.contAfterFetch = true → renv.contAfterSubmit = true →
      (solveRound cfg renv fst sid).broke = false)
    ∧ (∀ (cfg : SolverConfig) (renv : RoundEnv) (fst : Bool)
        (sid : Option String) (e : CaughtErr),
        roundBody cfg renv sid = Except.error e →
        solveRound cfg renv fst sid =
          ⟨(if fst then [LAction.sleep 500] else []) ++ e.acts ++
            [LAction.status "Error in solving loop", LAction.sleep 5000],
           e.storedId, false⟩)
    ∧ (∀ (cfg : SolverConfig) (renvs : Nat → RoundEnv) (category fuel : Nat),
        (solveLoop cfg renvs category fuel).halted = true →
        cfg.performanceThreshold ≤ category ∨
          ∃ k, (renvs k).contAtLoop = false ∨
            (renvs k).contAfterFetch = false ∨
            (renvs k).contAfterSubmit = false) := by
  refine ⟨solveRound_continues, solveRound_catch, ?_⟩
  intro cfg renvs category fuel h
  unfold solveLoop at h
  by_cases hg : category < cfg.performanceThreshold
  · rw [if_pos hg] at h
    exact Or.inr (loopRounds_halted cfg renvs fuel 0 none h)
  · exact Or.inl (by omega)

/-- Witness for C7: a transport-failing round with the stop flag set
continues, and a gate-excluded run halts for the gate reason. -/
theorem no_exception_escapes_C7_witness :
    (solveRound defaultConfig renvFail true none).broke = false
    ∧ (defaultConfig.performanceThreshold ≤ 5 ∨
        ∃ k, (renvsConst k).contAtLoop = false ∨
          (renvsConst k).contAfterFetch = false ∨
          (renvsConst k).contAfterSubmit = false) :=
  ⟨no_exception_escapes_C7.1 defaultConfig renvFail true none rfl rfl,
   no_exception_escapes_C7.2.2 defaultConfig renvsConst 5 0 rfl⟩

/-! ### Claim C8: behaviour after a transport failure during fetch -/

/-- C8 (amended): on a transport/server failure during challenge fetch,
the fetch helper itself sleeps a fixed 30000 ms before reporting
failure; the orchestrator then waits the configured `retryDelay` and
re-enters fetching (the round continues); no worker is dispatched and
no submission occurs in that round.  The sleeps after the failing fetch
call are exactly `[30000, retryDelay]`. -/
theorem fetch_failure_retry_C8 :
    ∀ (cfg : SolverConfig) (renv : RoundEnv) (fst : Bool)
      (sid : Option String) (m : String),
      renv.fetch = FetchOutcome.throwErr m →
      (solveRound cfg renv fst sid).broke = false
      ∧ LAction.dispatchWorker ∉ (solveRound cfg renv fst sid).acts
      ∧ LAction.submitCall ∉ (solveRound cfg renv fst sid).acts
      ∧ sleepsOf (afterFetch (solveRound cfg renv fst sid).acts) =
          [30000, cfg.retryDelay] := by
  intro cfg renv fst sid m hf
  rw [solveRound_fetchFail cfg renv fst sid m hf]
  cases fst <;>
    exact ⟨rfl, by simp, by simp,
      by simp [afterFetch, sleepsOf, List.dropWhile, isFetchCall]⟩

/-- Counterexample to C8 as stated: with the default configuration
(`retryDelay = 5000`), the sleeps performed after the failing fetch
call are not exactly `[retryDelay]` (the fetch helper's fixed 30 s
sleep precedes it). -/
theorem fetch_failure_retry_C8_counterexample :
    sleepsOf (afterFetch (solveRound defaultConfig renvFail false none).acts)
      ≠ [defaultConfig.retryDelay] := by
  decide

/-- Witness for C8 (amended) at the concrete failing round. -/
theorem fetch_failure_retry_C8_witness :
    (solveRound defaultConfig renvFail false none).broke = false
    ∧ LAction.dispatchWorker ∉ (solveRound defaultConfig renvFail false none).acts
    ∧ LAction.submitCall ∉ (solveRound defaultConfig renvFail false none).acts
    ∧ sleepsOf (afterFetch (solveRound defaultConfig renvFail false none).acts) =
        [30000, defaultConfig.retryDelay] :=
  fetch_failure_retry_C8 defaultConfig renvFail false none "network error" rfl

/-! ### Claim C4: validation precedes any POST in submitSolution -/

/-- C4: with well-formed inputs (32-byte challenge, 24-byte
digest-plus-nonce), `submitSolution` invokes `is_valid_solution` before
any POST; if validation returns false or throws, no POST occurs, the
condition is reported via a status/error emission and an error result
object is returned (the function is total — no exception propagates);
a POST happens only after a successful `true` validation. -/
theorem submit_validates_before_post_C4 :
    ∀ (sol : Solution) (cA : Bytes) (senv : SubmitEnv),
      cA.length = 32 → (sol.digest ++ sol.nonce).length = 24 →
      (senv.validOutcome = ValidOutcome.ok true →
        oraclePostCalls (submitSolution sol cA senv).1 =
          [LAction.validateCall, LAction.submitCall])
      ∧ (senv.validOutcome = ValidOutcome.ok false →
        LAction.submitCall ∉ (submitSolution sol cA senv).1
        ∧ LAction.status "Error: Invalid solution" ∈ (submitSolution sol cA senv).1
        ∧ (submitSolution sol cA senv).2.status = "error")
      ∧ (∀ m, senv.validOutcome = ValidOutcome.throwErr m →
        LAction.submitCall ∉ (submitSolution sol cA senv).1
        ∧ LAction.status ("Error validating solution: " ++ m) ∈
            (submitSolution sol cA senv).1
        ∧ (submitSolution sol cA senv).2.status = "error")
      ∧ (LAction.submitCall ∈ (submitSolution sol cA senv).1 →
        senv.validOutcome = ValidOutcome.ok true) := by
  intro sol cA senv h32 h24
  have hcond : ¬(cA.length ≠ 32 ∨ (sol.digest ++ sol.nonce).length ≠ 24) := by
    push_neg
    exact ⟨h32, h24⟩
  simp only [submitSolution]
  rw [if_neg hcond]
  rcases hv : senv.validOutcome with b | m
  · cases b
    · -- validation returned false
      refine ⟨?_, ?_, ?_, ?_⟩
      · intro hvt
        cases hvt
      · intro _
        refine ⟨by simp, by simp, rfl⟩
      · intro m hvt
        cases hvt
      · intro hmem
        simp at hmem
    · -- validation returned true
      rcases hp : senv.postOutcome with _ | m
      · refine ⟨?_, ?_, ?_, ?_⟩
        · intro _
          simp [oraclePostCalls, isOracleOrPost, List.filter]
        · intro hvt
          cases hvt
        · intro m hvt
          cases hvt
        · intro _
          rfl
      · refine ⟨?_, ?_, ?_, ?_⟩
        · intro _
          simp [oraclePostCalls, isOracleOrPost, List.filter]
        · intro hvt
          cases hvt
        · intro m' hvt
          cases hvt
        · intro _
          rfl
  · -- validation threw
    refine ⟨?_, ?_, ?_, ?_⟩
    · intro hvt
      cases hvt
    · intro hvt
      cases hvt
    · intro m' hvt
      cases hvt
      refine ⟨by simp, by simp, rfl⟩
    · intro hmem
      simp at hmem

/-- Witness for C4: validation success leads to validate-then-post, and
a `false` verdict suppresses the POST. -/
theorem submit_validates_before_post_C4_witness :
    oraclePostCalls (submitSolution solSubmit chal32 senvTrue).1 =
      [LAction.validateCall, LAction.submitCall]
    ∧ LAction.submitCall ∉ (submitSolution solSubmit chal32 senvFalse).1 :=
  ⟨(submit_validates_before_post_C4 solSubmit chal32 senvTrue
      (by decide) (by decide)).1 rfl,
   ((submit_validates_before_post_C4 solSubmit chal32 senvFalse
      (by decide) (by decide)).2.1 rfl).1⟩

/-! ### Claim C5: malformed challenge is rejected before the oracle -/

/-- C5: a decoded challenge whose length is not 32 is rejected before
any oracle invocation on both paths: the worker's `handleMessage`
performs zero `hash_with_memory` calls and posts exactly one error
status, and `submitSolution` performs zero `is_valid_solution` calls,
performs no POST and returns an error result. -/
theorem malformed_challenge_rejected_C5 :
    (∀ env : WorkerEnv, env.challengeArray.length ≠ 32 →
      handleMessage env =
        ⟨[WEvent.statusEv ("Error in captcha process: Invalid challenge length: "
            ++ toString env.challengeArray.length ++ ". Expected 32 bytes.")],
         0⟩)
    ∧ (∀ (sol : Solution) (cA : Bytes) (senv : SubmitEnv), cA.length ≠ 32 →
      LAction.validateCall ∉ (submitSolution sol cA senv).1
      ∧ LAction.submitCall ∉ (submitSolution sol cA senv).1
      ∧ (submitSolution sol cA senv).2 =
          ⟨"error", some "Invalid input lengths"⟩) := by
  constructor
  · intro env h
    unfold handleMessage
    rw [if_neg h]
  · intro sol cA senv h
    have hcond : cA.length ≠ 32 ∨ (sol.digest ++ sol.nonce).length ≠ 24 :=
      Or.inl h
    simp only [submitSolution]
    rw [if_pos hcond]
    exact ⟨by simp, by simp, rfl⟩

/-- Witness for C5 at a 3-byte challenge. -/
theorem malformed_challenge_rejected_C5_witness :
    handleMessage envBadLen =
      ⟨[WEvent.statusEv ("Error in captcha process: Invalid challenge length: "
          ++ toString envBadLen.challengeArray.length ++ ". Expected 32 bytes.")],
       0⟩
    ∧ LAction.validateCall ∉ (submitSolution solSubmit [1, 2, 3] senvTrue).1 :=
  ⟨(malformed_challenge_rejected_C5).1 envBadLen (by decide),
   ((malformed_challenge_rejected_C5).2 solSubmit [1, 2, 3] senvTrue
      (by decide)).1⟩

/-! ### Claim C9: nonce encode/decode round-trip -/

/-- C9: the nonce encoding is a round-trip: for every nonce N in
{0, 1, 2^32−1, 2^32, 2^53−1}, splitting N into low and high 32-bit
halves, writing each as a little-endian word into an 8-byte buffer
(low at offset 0, high at offset 4) and decoding the buffer as a 64-bit
little-endian integer yields N. -/
theorem nonce_roundtrip_C9 :
    decodeLE (encodeNonce 0) = 0 ∧
    decodeLE (encodeNonce 1) = 1 ∧
    decodeLE (encodeNonce 4294967295) = 4294967295 ∧
    decodeLE (encodeNonce 4294967296) = 4294967296 ∧
    decodeLE (encodeNonce 9007199254740991) = 9007199254740991 := by
  refine ⟨?_, ?_, ?_, ?_, ?_⟩ <;> rfl

/-! ### Claim C6: past deadline or empty range means zero iterations -/

/-- C6: if the deadline is already past at the first clock reading, or
`nonceStart > nonceEnd`, the search loop performs zero nonce iterations
(no hash call, no solution event), emits exactly one final completion
status and resolves with no solution. -/
theorem past_deadline_zero_iterations_C6 (env : WorkerEnv)
    (h : env.deadline ≤ env.clock 0 ∨ env.nonceEnd < env.nonceStart) :
    solveChallenge env =
      ⟨[WEvent.statusEv "Solving completed. No solution found meeting the target difficulty."],
       none, true, 0⟩ := by
  have hc : ¬(env.nonceStart ≤ env.nonceEnd ∧ env.clock 0 < env.deadline) := by
    rcases h with h | h
    · exact fun hcc => absurd hcc.2 (not_lt.mpr h)
    · exact fun hcc => absurd hcc.1 (not_le.mpr h)
  unfold solveChallenge workerFuel initState
  simp only [solveRunFuel, topEmission, finalStatus]
  rw [if_neg hc]
  simp

/-- Witness for C6 at a concrete environment whose deadline equals the
first clock reading. -/
theorem past_deadline_zero_iterations_C6_witness :
    solveChallenge envPast =
      ⟨[WEvent.statusEv "Solving completed. No solution found meeting the target difficulty."],
       none, true, 0⟩ :=
  past_deadline_zero_iterations_C6 envPast (Or.inl (by decide))

end CashCaptcha
